import Mathlib

/-!
Shallow embedding of the mow-demo server core (Player, Enemy, MapLoader,
and the attack/tick handlers from the server module), with positions and
timers modelled as exact rationals in place of JS floating-point numbers.

Conventions of the embedding:
* JS `Partial` record fields become `Option` fields; JS truthiness of an
  optional boolean is `Option.getD false`, of an optional string "present
  and non-empty".
* JS objects used as string-keyed tables become association lists
  `List (String × α)`; `obj[k]` is `List.lookup`, and the `for .. in`
  iteration order is the list order (JS insertion order).
* The source compares `Math.sqrt(dx*dx+dy*dy)` against constants and other
  distances only; since `Real.sqrt` is strictly monotone on nonnegatives,
  the embedding compares squared distances against squared constants,
  which yields exactly the same booleans.
* `Math.cos(Math.atan2(dy,dx))` and `Math.sin(Math.atan2(dy,dx))` are
  transcendental library calls; they are abstracted as an explicit
  parameter (`TrigModel`), so every theorem below holds for any
  interpretation of those two library functions.
-/

/-- 2D vector of rationals (JS `{x, y}` float pair, idealised). -/
structure Vec2 where
  x : ℚ
  y : ℚ
deriving DecidableEq

/-- Truthiness of a JS `boolean | undefined` field. -/
def truthyB (o : Option Bool) : Bool :=
  o.getD false

/-- Truthiness of a JS `string | undefined | null` field:
present and non-empty. -/
def truthyS (o : Option String) : Bool :=
  match o with
  | none => false
  | some s => !(s == "")

/-- `TICK_RATE` from the server module: 20 updates per second. -/
def TICK_RATE : ℚ := 20

/-! ## MapLoader -/

/-- One entry of `Tilemap.layers`, restricted to the fields
`isTileBlocked` reads: the layer type, its bounds, and the tile data.
`data` keeps the JS array semantics: an out-of-range read is `none`
(JS `undefined`). -/
structure Layer where
  isTileLayer : Bool
  width : Int
  height : Int
  data : List Int

/-- The `MapLoader` state after construction: the parsed layer list and
the precomputed set of collideable global tile ids. -/
structure MapLoader where
  layers : List Layer
  collidableTiles : List Int

/-- `MapLoader.isTileBlocked`, as a recursion over the layer list
mirroring the source `for` loop with early `return true`. -/
def isTileBlockedAux (coll : List Int) (x y : Int) : List Layer → Bool
  | [] => false
  | l :: rest =>
    if l.isTileLayer then
      if x < 0 ∨ x ≥ l.width ∨ y < 0 ∨ y ≥ l.height then
        true
      else
        let index := y * l.width + x
        match l.data.get? index.toNat with
        | some tile =>
          if coll.contains tile then true else isTileBlockedAux coll x y rest
        | none => isTileBlockedAux coll x y rest
    else
      isTileBlockedAux coll x y rest

/-- `MapLoader.isTileBlocked(x, y)`. -/
def MapLoader.isTileBlocked (m : MapLoader) (x y : Int) : Bool :=
  isTileBlockedAux m.collidableTiles x y m.layers

/-! ## Player -/

/-- The buffered `currentInput` value (`Partial<{...}>` in the source). -/
structure PlayerInput where
  left : Option Bool := none
  right : Option Bool := none
  up : Option Bool := none
  down : Option Bool := none
  direction : Option String := none
  action : Option String := none
deriving DecidableEq

/-- The empty JS object `{}` used to reset the buffer. -/
def emptyInput : PlayerInput := {}

/-- Server-side `Player` entity state. -/
structure Player where
  playerId : String
  position : Vec2
  level : Int
  exp : Int
  health : Int
  direction : String
  action : String
  isAlive : Bool := true
  speed : ℚ := 60
  currentInput : PlayerInput := {}
deriving DecidableEq

/-- `Player.setInput`: replace the buffer wholesale, then restore the
sticky "attack" flag if the previous buffer carried it. -/
def Player.setInput (input : PlayerInput) (p : Player) : Player :=
  let prev := p.currentInput
  let cur := if prev.action = some "attack" then { input with action := some "attack" } else input
  { p with currentInput := cur }

/-- `Player.isAttacking`. -/
def Player.isAttacking (p : Player) : Bool :=
  p.currentInput.action == some "attack"

/-- `Player.processInput`: apply the buffered directional flags
(sequentially, as in the source), probe one collision point at
`(x - 2, y + halfSpriteSize)` scaled by the 16px tile size, commit the
candidate position only if that probe is not blocked, copy direction and
action when present, and clear the buffer. -/
def Player.processInput (m : MapLoader) (p : Player) : Player :=
  let input := p.currentInput
  let x1 := if truthyB input.left then p.position.x - p.speed / TICK_RATE else p.position.x
  let x2 := if truthyB input.right then x1 + p.speed / TICK_RATE else x1
  let y1 := if truthyB input.up then p.position.y - p.speed / TICK_RATE else p.position.y
  let y2 := if truthyB input.down then y1 + p.speed / TICK_RATE else y1
  let newPosition : Vec2 := ⟨x2, y2⟩
  -- spriteSize = 32, halfSpriteSize = 16
  let collisionX := newPosition.x - 2
  let collisionY := newPosition.y + 16
  let p1 :=
    if m.isTileBlocked ⌊collisionX / 16⌋ ⌊collisionY / 16⌋ = false then
      { p with position := newPosition }
    else p
  let p2 := if truthyS input.direction then { p1 with direction := input.direction.getD p1.direction } else p1
  let p3 := if truthyS input.action then { p2 with action := input.action.getD p2.action } else p2
  { p3 with currentInput := emptyInput }

/-- `Player.gainExp`: add the amount, then a single (`if`, not `while`)
threshold check deducting `level*100` and incrementing the level.
Returns the updated player and the level-up flag. -/
def Player.gainExp (amount : Int) (p : Player) : Player × Bool :=
  let p1 := { p with exp := p.exp + amount }
  if p1.exp ≥ p1.level * 100 then
    ({ p1 with exp := p1.exp - p1.level * 100, level := p1.level + 1 }, true)
  else
    (p1, false)

/-! ## Enemy -/

/-- The `ActionType` union of the source. -/
inductive ActionType where
  | hop
  | longJump
  | idle
  | confused
deriving DecidableEq

/-- Interpretation of the two transcendental library calls
`Math.cos(Math.atan2(dy, dx))` and `Math.sin(Math.atan2(dy, dx))`
appearing in `Enemy.setMovement` (arguments in `atan2` order: dy, dx). -/
structure TrigModel where
  cosAtan2 : ℚ → ℚ → ℚ
  sinAtan2 : ℚ → ℚ → ℚ

/-- Server-side `Enemy` entity state. -/
structure Enemy where
  id : String
  position : Vec2
  health : Int
  alive : Bool
  velocity : Vec2
  direction : String
  action : ActionType
  targetPlayerId : Option String := none
  currentActionIndex : Int := 0
  actionTimer : ℚ := 0
deriving DecidableEq

/-- The fixed behaviour cycle `actionCycle` of `Enemy`. -/
def actionCycle : List ActionType :=
  [ActionType.hop, ActionType.idle, ActionType.longJump, ActionType.idle, ActionType.idle]

/-- Enemy movement/timing constants. -/
def HOP_DISTANCE : ℚ := 10
def LONG_JUMP_DISTANCE : ℚ := 60
def PAUSE_DURATION : ℚ := 1000
def MOVE_DURATION : ℚ := 1000
def LONG_JUMP_DURATION : ℚ := 600

/-- Squared Euclidean distance. The source computes
`Math.sqrt(dx*dx + dy*dy)` and only ever compares the result against
constants or other distances, so comparing squares is equivalent. -/
def dist2 (p1 p2 : Vec2) : ℚ :=
  let dx := p1.x - p2.x
  let dy := p1.y - p2.y
  dx * dx + dy * dy

/-- `Enemy.takeDamage`: deduct health; at ≤ 0 mark dead and report true,
otherwise stop, enter `confused` for `PAUSE_DURATION`, and report false. -/
def Enemy.takeDamage (amount : Int) (e : Enemy) : Enemy × Bool :=
  let e1 := { e with health := e.health - amount }
  if e1.health ≤ 0 then
    ({ e1 with alive := false }, true)
  else
    ({ e1 with velocity := ⟨0, 0⟩, action := ActionType.confused,
               actionTimer := PAUSE_DURATION }, false)

/-- `Enemy.setMovement`: aims the velocity at the looked-up target using
the trig library calls, picks the facing label by comparing `|dx|` and
`|dy|`, and starts the movement timer. Early-returns when the target id
is falsy or absent from the (module-global) player table, which is
passed here explicitly. -/
def Enemy.setMovement (trig : TrigModel) (ps : List (String × Player))
    (movementType : ActionType) (e : Enemy) : Enemy :=
  if truthyS e.targetPlayerId = false then e
  else
    match List.lookup (e.targetPlayerId.getD "") ps with
    | none => e
    | some target =>
      let dx := target.position.x - e.position.x
      let dy := target.position.y - e.position.y
      let dir :=
        if |dx| > |dy| then (if dx > 0 then "right" else "left")
        else (if dy > 0 then "down" else "up")
      let dd :=
        if movementType = ActionType.hop then (HOP_DISTANCE, MOVE_DURATION)
        else (LONG_JUMP_DISTANCE, LONG_JUMP_DURATION)
      let speed := dd.1 / (dd.2 / 1000)
      { e with direction := dir,
               velocity := ⟨trig.cosAtan2 dy dx * speed, trig.sinAtan2 dy dx * speed⟩,
               actionTimer := dd.2,
               action := movementType }

/-- `Enemy.executeAction`, taking the (possibly `undefined`) cycle entry:
the `switch` in the source sends `hop`/`longJump` to `setMovement`, `idle` to
a timed pause, and everything else (including `confused` and an
out-of-range `undefined`) to the untimed default branch. -/
def Enemy.executeAction (trig : TrigModel) (ps : List (String × Player))
    (oa : Option ActionType) (e : Enemy) : Enemy :=
  match oa with
  | some ActionType.hop => e.setMovement trig ps ActionType.hop
  | some ActionType.longJump => e.setMovement trig ps ActionType.longJump
  | some ActionType.idle =>
    { e with velocity := ⟨0, 0⟩, action := ActionType.idle, actionTimer := PAUSE_DURATION }
  | _ => { e with velocity := ⟨0, 0⟩, action := ActionType.idle }

/-- `Enemy.executeNextAction`: advance the cycle index modulo the cycle
length and execute the entry there. -/
def Enemy.executeNextAction (trig : TrigModel) (ps : List (String × Player))
    (e : Enemy) : Enemy :=
  let idx := (e.currentActionIndex + 1) % 5
  Enemy.executeAction trig ps (actionCycle.get? idx.toNat)
    { e with currentActionIndex := idx }

/-- `Enemy.move`: integrate velocity over `deltaTime`, clamp the position
to the fixed `[0,800] × [0,600]` rectangle, count the action timer down,
and on reaching ≤ 0 advance the cycle and execute its entry. -/
def Enemy.move (trig : TrigModel) (ps : List (String × Player))
    (deltaTime : ℚ) (e : Enemy) : Enemy :=
  if e.alive = false then e
  else
    let deltaSeconds := deltaTime / 1000
    let px := e.position.x + e.velocity.x * deltaSeconds
    let py := e.position.y + e.velocity.y * deltaSeconds
    let cx := max 0 (min 800 px)
    let cy := max 0 (min 600 py)
    let timer := e.actionTimer - deltaTime
    let e1 := { e with position := ⟨cx, cy⟩, actionTimer := timer }
    if timer ≤ 0 then e1.executeNextAction trig ps else e1

/-! ## Generic nearest-entity scan

Both `Enemy.findTarget` and the server `handleAttack` run the same
`for`-loop shape: skip entries whose score is undefined, otherwise keep
the first strictly-smaller in-range score seen so far (`minDistance`
starts at `Infinity`, modelled by the `none` accumulator). The radius
test and the aliveness filter are folded into the `score` function. -/

/-- The scan loop with explicit accumulator. -/
def scanLoop {α : Type} (score : α → Option ℚ) :
    List (String × α) → Option (String × α × ℚ) → Option (String × α × ℚ)
  | [], acc => acc
  | (k, a) :: rest, acc =>
    let acc2 :=
      match score a, acc with
      | none, b => b
      | some d, none => some (k, a, d)
      | some d, some (bk, ba, bd) => if d < bd then some (k, a, d) else some (bk, ba, bd)
    scanLoop score rest acc2

/-- Structural ("first minimum from the left") presentation of the same
scan, used to state and prove its properties. -/
def scanFirstMin {α : Type} (score : α → Option ℚ) :
    List (String × α) → Option (String × α × ℚ)
  | [] => none
  | (k, a) :: rest =>
    match score a, scanFirstMin score rest with
    | none, r => r
    | some d, none => some (k, a, d)
    | some d, some (q, qa, qd) => if d ≤ qd then some (k, a, d) else some (q, qa, qd)

/-- Score used by `Enemy.findTarget`: squared distance when within the
squared detection radius `50² = 2500` (the source tests `≤`). -/
def playerScore (pos : Vec2) (p : Player) : Option ℚ :=
  let d := dist2 pos p.position
  if d ≤ 2500 then some d else none

/-- Score used by `handleAttack`: skip dead enemies, then squared
distance when strictly within the squared attack radius (the source
tests `<`). -/
def enemyScore (pos : Vec2) (e : Enemy) : Option ℚ :=
  if e.alive = false then none
  else
    let d := dist2 pos e.position
    if d < 2500 then some d else none

/-- `Enemy.findTarget`: keep a truthy, alive target; otherwise scan the
player table for the nearest player within the detection radius and, on
success, restart the behaviour cycle from index `-1` (so the next entry
executed is index 0, `hop`). -/
def Enemy.findTarget (trig : TrigModel) (ps : List (String × Player))
    (e : Enemy) : Enemy :=
  if truthyS e.targetPlayerId &&
      ((List.lookup (e.targetPlayerId.getD "") ps).map Player.isAlive).getD false then
    e
  else
    match scanLoop (playerScore e.position) ps none with
    | none => e
    | some (pid, _, _) =>
      Enemy.executeNextAction trig ps
        { e with targetPlayerId := some pid, currentActionIndex := -1 }

/-- `Enemy.performAction`: with a truthy target id, clear the target and
return to a stationary idle when the target is missing or not alive. -/
def Enemy.performAction (ps : List (String × Player)) (e : Enemy) : Enemy :=
  if truthyS e.targetPlayerId = false then e
  else
    match List.lookup (e.targetPlayerId.getD "") ps with
    | none =>
      { e with targetPlayerId := none, action := ActionType.idle, velocity := ⟨0, 0⟩ }
    | some target =>
      if target.isAlive then e
      else
        { e with targetPlayerId := none, action := ActionType.idle, velocity := ⟨0, 0⟩ }

/-! ## Server combat step -/

/-- Replace the value stored under a key of a JS-object table (the source
mutates the entry object in place). -/
def updateEntry {α : Type} (k : String) (v : α) (l : List (String × α)) :
    List (String × α) :=
  l.map (fun kv => if kv.1 == k then (k, v) else kv)

/-- `handleAttack(playerId)`: look the player up, scan for the nearest
alive enemy strictly within the attack radius, deal fixed damage 10; on
death grant `exp = 50` (with the level rule of `gainExp`) and delete the
enemy, otherwise store the confused survivor. The database write and the
`levelUp` socket emit are external I/O and have no effect on the
simulation state modelled here. -/
def handleAttack (pid : String) (ps : List (String × Player))
    (es : List (String × Enemy)) : List (String × Player) × List (String × Enemy) :=
  match List.lookup pid ps with
  | none => (ps, es)
  | some player =>
    match scanLoop (enemyScore player.position) es none with
    | none => (ps, es)
    | some (eid, en, _) =>
      let r := en.takeDamage 10
      if r.2 then
        let pr := player.gainExp 50
        (updateEntry pid pr.1 ps, es.filter (fun kv => !(kv.1 == eid)))
      else
        (ps, updateEntry eid r.1 es)

/-! ## Derived definitions used to state the claims -/

/-- The candidate position `processInput` computes from the buffered
directional flags before the collision probe (same sequential updates as
the source). -/
def moveCandidate (p : Player) : Vec2 :=
  let x1 := if truthyB p.currentInput.left then p.position.x - p.speed / TICK_RATE else p.position.x
  let x2 := if truthyB p.currentInput.right then x1 + p.speed / TICK_RATE else x1
  let y1 := if truthyB p.currentInput.up then p.position.y - p.speed / TICK_RATE else p.position.y
  let y2 := if truthyB p.currentInput.down then y1 + p.speed / TICK_RATE else y1
  ⟨x2, y2⟩

/-- Processing a whole sequence of buffered inputs: each tick the buffer
holds the next input and `processInput` consumes it. -/
def processSeq (m : MapLoader) (inputs : List PlayerInput) (p : Player) : Player :=
  inputs.foldl (fun q i => Player.processInput m { q with currentInput := i }) p

/-- Folding a sequence of `gainExp` calls, keeping the player state. -/
def gainSeq (amounts : List Int) (p : Player) : Player :=
  amounts.foldl (fun q a => (q.gainExp a).1) p

/-- Merging a pending accumulator with the first-minimum of a remaining
list; used to relate `scanLoop` to `scanFirstMin`. -/
def combineAcc {α : Type} :
    Option (String × α × ℚ) → Option (String × α × ℚ) → Option (String × α × ℚ)
  | none, r => r
  | some b, none => some b
  | some b, some s => if s.2.2 < b.2.2 then some s else some b

/-! ## Concrete fixtures (used by counterexamples and witnesses) -/

/-- A trig interpretation; any other interpretation works as well in the
theorems quantifying over `TrigModel`. -/
def trig0 : TrigModel := ⟨fun _ _ => 0, fun _ _ => 0⟩

/-- The default freshly created player of the server (`init` handler). -/
def basePlayer : Player :=
  { playerId := "p", position := ⟨300, 200⟩, level := 1, exp := 0,
    health := 100, direction := "right", action := "idle" }

/-- A map with one empty 100×100 tile layer and no collideable tiles. -/
def openMap : MapLoader :=
  { layers := [⟨true, 100, 100, []⟩], collidableTiles := [] }

/-- A 1×4 column map whose tile (0,1) is collideable (global id 5). -/
def columnMap : MapLoader :=
  { layers := [⟨true, 1, 4, [0, 5, 0, 0]⟩], collidableTiles := [5] }

/-- A player standing at (8,34) in `columnMap` about to walk up. -/
def colPlayer : Player :=
  { basePlayer with position := ⟨8, 34⟩, currentInput := { up := some true } }

/-- A player whose buffer carries a pending attack. -/
def atkPlayer : Player :=
  { basePlayer with currentInput := { action := some "attack" } }

/-- A player buffering `{right: true}` for the movement scenario. -/
def rightPlayer : Player :=
  { basePlayer with currentInput := { right := some true } }

/-- A freshly spawned enemy at the origin. -/
def baseEnemy : Enemy :=
  { id := "e", position := ⟨0, 0⟩, health := 30, alive := true,
    velocity := ⟨0, 0⟩, direction := "down", action := ActionType.idle }

/-- Players equidistant (distance 30) from `baseEnemy`, ids "a" and "b". -/
def playerAtA : Player := { basePlayer with playerId := "a", position := ⟨0, 30⟩ }
def playerAtB : Player := { basePlayer with playerId := "b", position := ⟨30, 0⟩ }

/-- A targetless enemy whose timer is about to expire onto `longJump`. -/
def cycEnemy : Enemy := { baseEnemy with currentActionIndex := 1, actionTimer := 100 }

/-- An enemy locked onto player id "a". -/
def farEnemy : Enemy := { baseEnemy with targetPlayerId := some "a" }

/-- An alive player far outside the detection radius. -/
def farPlayer : Player := { basePlayer with playerId := "a", position := ⟨500, 0⟩ }

/-- A health-30 enemy standing on the attacking player. -/
def scenEnemy : Enemy := { baseEnemy with id := "m", position := ⟨300, 200⟩ }

/-- `cycEnemy` one 100 ms tick later (cycle index moved onto `longJump`
without entering it). -/
def cycEnemyMid : Enemy :=
  { cycEnemy with position := ⟨0, 0⟩, currentActionIndex := 2, actionTimer := 0 }

/-- `cycEnemyMid` one further tick later (cycle re-entered `idle`). -/
def cycEnemyAfter : Enemy :=
  { cycEnemy with position := ⟨0, 0⟩, currentActionIndex := 3, actionTimer := PAUSE_DURATION }

/-! ## Helper lemmas -/

theorem scanLoop_eq_combine {α : Type} (score : α → Option ℚ) :
    ∀ (l : List (String × α)) (acc : Option (String × α × ℚ)),
    scanLoop score l acc = combineAcc acc (scanFirstMin score l) := by
  intro l
  induction l with
  | nil =>
    intro acc
    cases acc <;> rfl
  | cons x rest ih =>
    intro acc
    obtain ⟨k, a⟩ := x
    rcases hs : score a with _ | d <;>
      rcases acc with _ | ⟨bk, ba, bd⟩ <;>
      rcases hr : scanFirstMin score rest with _ | ⟨q, qa, qd⟩ <;>
      simp only [scanLoop, scanFirstMin, hs, hr, ih] <;>
      (try split_ifs) <;>
      (try simp only [combineAcc]) <;>
      (try split_ifs) <;>
      first
      | rfl
      | (exfalso; linarith)

theorem scanFirstMin_mem {α : Type} (score : α → Option ℚ) :
    ∀ (l : List (String × α)) (k : String) (a : α) (d : ℚ),
    scanFirstMin score l = some (k, a, d) → (k, a) ∈ l ∧ score a = some d := by
  intro l
  induction l with
  | nil => intro k a d h; simp [scanFirstMin] at h
  | cons x rest ih =>
    intro k a d h
    obtain ⟨k0, a0⟩ := x
    rcases hs : score a0 with _ | d0 <;>
      rcases hr : scanFirstMin score rest with _ | ⟨p, pa, pd⟩ <;>
      simp only [scanFirstMin, hs, hr] at h
    · simp at h
    · obtain ⟨h1, h2⟩ := ih k a d (hr.trans h)
      exact ⟨List.mem_cons_of_mem _ h1, h2⟩
    · obtain ⟨rfl, rfl, rfl⟩ := by simpa using h.symm
      exact ⟨List.mem_cons_self _ _, hs⟩
    · split_ifs at h with hle
      · obtain ⟨rfl, rfl, rfl⟩ := by simpa using h.symm
        exact ⟨List.mem_cons_self _ _, hs⟩
      · obtain ⟨h1, h2⟩ := ih k a d (hr.trans h)
        exact ⟨List.mem_cons_of_mem _ h1, h2⟩

theorem scanFirstMin_none {α : Type} (score : α → Option ℚ) :
    ∀ (l : List (String × α)), scanFirstMin score l = none →
    ∀ q qa, (q, qa) ∈ l → score qa = none := by
  intro l
  induction l with
  | nil => intro _ q qa hm; simp at hm
  | cons x rest ih =>
    intro h q qa hm
    obtain ⟨k0, a0⟩ := x
    rcases hs : score a0 with _ | d0 <;>
      rcases hr : scanFirstMin score rest with _ | ⟨p, pa, pd⟩ <;>
      simp only [scanFirstMin, hs, hr] at h
    · rcases List.mem_cons.mp hm with hx | hx
      · obtain ⟨rfl, rfl⟩ := by simpa using hx
        exact hs
      · exact ih hr q qa hx
    · simp at h
    · simp at h
    · split_ifs at h

theorem scanFirstMin_min {α : Type} (score : α → Option ℚ) :
    ∀ (l : List (String × α)) (k : String) (a : α) (d : ℚ),
    scanFirstMin score l = some (k, a, d) →
    ∀ q qa, (q, qa) ∈ l → ∀ qd, score qa = some qd → d ≤ qd := by
  intro l
  induction l with
  | nil => intro k a d h; simp [scanFirstMin] at h
  | cons x rest ih =>
    intro k a d h q qa hm qd hq
    obtain ⟨k0, a0⟩ := x
    rcases hs : score a0 with _ | d0 <;>
      rcases hr : scanFirstMin score rest with _ | ⟨p, pa, pd⟩ <;>
      simp only [scanFirstMin, hs, hr] at h
    · simp at h
    · rcases List.mem_cons.mp hm with hx | hx
      · obtain ⟨rfl, rfl⟩ := by simpa using hx
        rw [hs] at hq; cases hq
      · exact ih k a d (hr.trans h) q qa hx qd hq
    · obtain ⟨rfl, rfl, rfl⟩ := by simpa using h.symm
      rcases List.mem_cons.mp hm with hx | hx
      · obtain ⟨rfl, rfl⟩ := by simpa using hx
        rw [hs] at hq
        exact le_of_eq (Option.some.inj hq)
      · rw [scanFirstMin_none score rest hr q qa hx] at hq; cases hq
    · split_ifs at h with hle
      · obtain ⟨rfl, rfl, rfl⟩ := by simpa using h.symm
        rcases List.mem_cons.mp hm with hx | hx
        · obtain ⟨rfl, rfl⟩ := by simpa using hx
          rw [hs] at hq
          exact le_of_eq (Option.some.inj hq)
        · exact le_trans hle (ih p pa pd hr q qa hx qd hq)
      · obtain ⟨rfl, rfl, rfl⟩ := by simpa using h.symm
        rcases List.mem_cons.mp hm with hx | hx
        · obtain ⟨rfl, rfl⟩ := by simpa using hx
          rw [hs] at hq
          have hd : d0 = qd := Option.some.inj hq
          have hlt : d < d0 := lt_of_not_le hle
          linarith
        · exact ih k a d hr q qa hx qd hq

theorem scanFirstMin_first {α : Type} (score : α → Option ℚ) :
    ∀ (l : List (String × α)) (k : String) (a : α) (d : ℚ),
    scanFirstMin score l = some (k, a, d) →
    ∃ l1 l2, l = l1 ++ (k, a) :: l2 ∧
      ∀ y ∈ l1, ∀ yd, score y.2 = some yd → d < yd := by
  intro l
  induction l with
  | nil => intro k a d h; simp [scanFirstMin] at h
  | cons x rest ih =>
    intro k a d h
    obtain ⟨k0, a0⟩ := x
    rcases hs : score a0 with _ | d0 <;>
      rcases hr : scanFirstMin score rest with _ | ⟨p, pa, pd⟩ <;>
      simp only [scanFirstMin, hs, hr] at h
    · simp at h
    · obtain ⟨l1, l2, hsplit, hfirst⟩ := ih k a d (hr.trans h)
      refine ⟨(k0, a0) :: l1, l2, by rw [hsplit]; rfl, ?_⟩
      intro y hy yd hyd
      rcases List.mem_cons.mp hy with hx | hx
      · rw [hx] at hyd; rw [hs] at hyd; cases hyd
      · exact hfirst y hx yd hyd
    · obtain ⟨rfl, rfl, rfl⟩ := by simpa using h.symm
      exact ⟨[], rest, rfl, by intro y hy; simp at hy⟩
    · split_ifs at h with hle
      · obtain ⟨rfl, rfl, rfl⟩ := by simpa using h.symm
        exact ⟨[], rest, rfl, by intro y hy; simp at hy⟩
      · obtain ⟨rfl, rfl, rfl⟩ := by simpa using h.symm
        obtain ⟨l1, l2, hsplit, hfirst⟩ := ih k a d hr
        refine ⟨(k0, a0) :: l1, l2, by rw [hsplit]; rfl, ?_⟩
        intro y hy yd hyd
        rcases List.mem_cons.mp hy with hx | hx
        · rw [hx] at hyd
          rw [hs] at hyd
          have hd : d0 = yd := Option.some.inj hyd
          have hlt : d < d0 := lt_of_not_le hle
          linarith
        · exact hfirst y hx yd hyd

theorem lookup_filter_ne {α : Type} (k : String) :
    ∀ (l : List (String × α)),
    List.lookup k (l.filter (fun kv => !(kv.1 == k))) = none := by
  intro l
  induction l with
  | nil => rfl
  | cons x rest ih =>
    obtain ⟨k0, a0⟩ := x
    by_cases hk : k0 = k
    · subst hk; simp [List.filter, ih]
    · have h1 : (k0 == k) = false := beq_false_of_ne hk
      have h2 : (k == k0) = false := beq_false_of_ne (Ne.symm hk)
      simp only [List.filter, h1, Bool.not_false]
      rw [List.lookup, h2, ih]

theorem lookup_updateEntry_of_mem {α : Type} (k : String) (w : α) :
    ∀ (l : List (String × α)) (v : α), (k, v) ∈ l →
    List.lookup k (updateEntry k w l) = some w := by
  intro l
  induction l with
  | nil => intro v hv; simp at hv
  | cons x rest ih =>
    intro v hv
    obtain ⟨k0, a0⟩ := x
    by_cases hk : k0 = k
    · subst hk
      have h1 : (k0 == k0) = true := beq_self_eq_true k0
      simp only [updateEntry, List.map_cons, h1, if_true]
      rw [List.lookup, h1]
    · have h1 : (k0 == k) = false := beq_false_of_ne hk
      have h2 : (k == k0) = false := beq_false_of_ne (Ne.symm hk)
      rcases List.mem_cons.mp hv with hx | hx
      · obtain ⟨rfl, rfl⟩ := by simpa using hx
        simp at h2
      · simp only [updateEntry, List.map, h1, Bool.false_eq_true, if_false]
        rw [List.lookup, h2]
        exact ih v hx

theorem lookup_mem_isSome {α : Type} (k : String) :
    ∀ (l : List (String × α)) (v : α), (k, v) ∈ l →
    ∃ w, List.lookup k l = some w := by
  intro l
  induction l with
  | nil => intro v hv; simp at hv
  | cons x rest ih =>
    intro v hv
    obtain ⟨k0, a0⟩ := x
    by_cases hk : k = k0
    · subst hk
      exact ⟨a0, by simp [List.lookup]⟩
    · have h2 : (k == k0) = false := beq_false_of_ne hk
      rcases List.mem_cons.mp hv with hx | hx
      · obtain ⟨rfl, rfl⟩ := by simpa using hx
        simp at h2
      · rw [List.lookup, h2]
        exact ih v hx

theorem processInput_position (m : MapLoader) (p : Player) :
    (Player.processInput m p).position =
      if m.isTileBlocked ⌊((moveCandidate p).x - 2) / 16⌋ ⌊((moveCandidate p).y + 16) / 16⌋ = false
      then moveCandidate p else p.position := by
  simp only [Player.processInput, moveCandidate]
  split_ifs <;> rfl

theorem processInput_clears (m : MapLoader) (p : Player) :
    (Player.processInput m p).currentInput = emptyInput := rfl

theorem isTileBlockedAux_oob (coll : List Int) (x y : Int) :
    ∀ (ls : List Layer), (∃ L ∈ ls, L.isTileLayer = true ∧
      (x < 0 ∨ x ≥ L.width ∨ y < 0 ∨ y ≥ L.height)) →
    isTileBlockedAux coll x y ls = true := by
  intro ls
  induction ls with
  | nil => intro h; simp at h
  | cons l rest ih =>
    intro h
    obtain ⟨L, hL, ht, hoob⟩ := h
    by_cases htl : l.isTileLayer
    · by_cases hb : x < 0 ∨ x ≥ l.width ∨ y < 0 ∨ y ≥ l.height
      · simp [isTileBlockedAux, htl, hb]
      · rcases List.mem_cons.mp hL with hx | hx
        · subst hx; exact absurd hoob hb
        · simp only [isTileBlockedAux, htl, if_true, hb, if_false]
          have hrest : isTileBlockedAux coll x y rest = true := ih ⟨L, hx, ht, hoob⟩
          rcases hget : (l.data.get? (y * l.width + x).toNat) with _ | tile
          · exact hrest
          · by_cases hc : coll.contains tile <;> simp [hc, hrest]
    · rcases List.mem_cons.mp hL with hx | hx
      · subst hx; exact absurd ht (by simpa using htl)
      · simp only [isTileBlockedAux, htl, if_false]
        exact ih ⟨L, hx, ht, hoob⟩

theorem gainExp_step (p : Player) (a : Int) (hl : 1 ≤ p.level)
    (he0 : 0 ≤ p.exp) (he1 : p.exp < p.level * 100) (ha0 : 0 ≤ a) (ha1 : a ≤ 100) :
    1 ≤ (p.gainExp a).1.level ∧ 0 ≤ (p.gainExp a).1.exp ∧
      (p.gainExp a).1.exp < (p.gainExp a).1.level * 100 := by
  simp only [Player.gainExp]
  split_ifs with h <;> simp only [] <;> omega

theorem lookup_eq_some_mem {α : Type} (k : String) :
    ∀ (l : List (String × α)) (v : α), List.lookup k l = some v → (k, v) ∈ l := by
  intro l
  induction l with
  | nil => intro v hv; simp [List.lookup] at hv
  | cons x rest ih =>
    intro v hv
    obtain ⟨k0, a0⟩ := x
    by_cases hk : k = k0
    · subst hk
      rw [List.lookup, beq_self_eq_true] at hv
      obtain rfl : a0 = v := by simpa using hv
      exact List.mem_cons_self _ _
    · rw [List.lookup, beq_false_of_ne hk] at hv
      exact List.mem_cons_of_mem _ (ih v hv)

theorem executeAction_position (trig : TrigModel) (ps : List (String × Player))
    (oa : Option ActionType) (e : Enemy) :
    (Enemy.executeAction trig ps oa e).position = e.position := by
  rcases oa with _ | a
  · rfl
  · cases a <;>
      simp only [Enemy.executeAction, Enemy.setMovement] <;>
      (try split_ifs) <;>
      (try rfl) <;>
      (rcases List.lookup (e.targetPlayerId.getD "") ps with _ | t <;> rfl)

theorem processInput_probe (m : MapLoader) (p : Player)
    (h : m.isTileBlocked ⌊(p.position.x - 2) / 16⌋ ⌊(p.position.y + 16) / 16⌋ = false) :
    m.isTileBlocked ⌊((Player.processInput m p).position.x - 2) / 16⌋
      ⌊((Player.processInput m p).position.y + 16) / 16⌋ = false := by
  rw [processInput_position]
  split_ifs with hc
  · exact hc
  · exact h

theorem processSeq_probe (m : MapLoader) :
    ∀ (inputs : List PlayerInput) (p : Player),
    m.isTileBlocked ⌊(p.position.x - 2) / 16⌋ ⌊(p.position.y + 16) / 16⌋ = false →
    m.isTileBlocked ⌊((processSeq m inputs p).position.x - 2) / 16⌋
      ⌊((processSeq m inputs p).position.y + 16) / 16⌋ = false := by
  intro inputs
  induction inputs with
  | nil => intro p h; exact h
  | cons i rest ih =>
    intro p h
    exact ih (Player.processInput m { p with currentInput := i }) (processInput_probe m _ h)

theorem gainSeq_invariant (amounts : List Int) :
    ∀ (p : Player), 1 ≤ p.level → 0 ≤ p.exp → p.exp < p.level * 100 →
    (∀ a ∈ amounts, 0 ≤ a ∧ a ≤ 100) →
    1 ≤ (gainSeq amounts p).level ∧ 0 ≤ (gainSeq amounts p).exp ∧
      (gainSeq amounts p).exp < (gainSeq amounts p).level * 100 := by
  induction amounts with
  | nil => intro p hl he0 he1 _; exact ⟨hl, he0, he1⟩
  | cons a rest ih =>
    intro p hl he0 he1 hs
    have ha := hs a (List.mem_cons_self _ _)
    obtain ⟨h1, h2, h3⟩ := gainExp_step p a hl he0 he1 ha.1 ha.2
    exact ih (p.gainExp a).1 h1 h2 h3 (fun b hb => hs b (List.mem_cons_of_mem _ hb))

/-! ## Claim theorems -/

/-- C1, counterexample: the claim says the leveling rule repeats the
deduction while `exp ≥ level*100`; the source `gainExp` checks once
(`if`). From the default player (level 1, exp 0) a single `gainExp 350`
levels once and leaves `exp = 250 ≥ 200 = level*100`, violating the
claimed invariant. -/
theorem C1_counterexample :
    basePlayer.level = 1 ∧ basePlayer.exp = 0 ∧
    (basePlayer.gainExp 350).1.level = 2 ∧ (basePlayer.gainExp 350).1.exp = 250 ∧
    ¬ ((basePlayer.gainExp 350).1.exp < (basePlayer.gainExp 350).1.level * 100) := by
  decide

/-- C1, amended: `gainExp` deducts the threshold at most once per call, so
the invariant `0 ≤ exp < level*100` is preserved by every sequence of
`gainExp` calls whose amounts lie in `[0, 100]` (the game awards a fixed
50 per kill); a single amount crossing two thresholds breaks it. -/
theorem C1_gainExp_invariant (amounts : List Int) (p : Player)
    (hl : 1 ≤ p.level) (he0 : 0 ≤ p.exp) (he1 : p.exp < p.level * 100)
    (hs : ∀ a ∈ amounts, 0 ≤ a ∧ a ≤ 100) :
    0 ≤ (gainSeq amounts p).exp ∧
      (gainSeq amounts p).exp < (gainSeq amounts p).level * 100 :=
  ⟨(gainSeq_invariant amounts p hl he0 he1 hs).2.1,
   (gainSeq_invariant amounts p hl he0 he1 hs).2.2⟩

theorem C1_witness :
    (1 ≤ basePlayer.level ∧ 0 ≤ basePlayer.exp ∧
      basePlayer.exp < basePlayer.level * 100 ∧
      ∀ a ∈ ([50, 50, 50] : List Int), 0 ≤ a ∧ a ≤ 100) ∧
    (0 ≤ (gainSeq [50, 50, 50] basePlayer).exp ∧
      (gainSeq [50, 50, 50] basePlayer).exp <
        (gainSeq [50, 50, 50] basePlayer).level * 100) :=
  ⟨⟨by decide, by decide, by decide, by decide⟩,
   C1_gainExp_invariant [50, 50, 50] basePlayer (by decide) (by decide) (by decide) (by decide)⟩

/-- C2, counterexample: the claimed iff says the buffered action can be
"attack" only when the new message sets "attack" or sets no action at
all; but `setInput` keeps a pending attack even when the new message
explicitly sets a different action ("idle" here). -/
theorem C2_counterexample :
    ¬ (((atkPlayer.setInput { action := some "idle" }).currentInput.action = some "attack") ↔
       (({ action := some "idle" } : PlayerInput).action = some "attack" ∨
        (atkPlayer.currentInput.action = some "attack" ∧
         ({ action := some "idle" } : PlayerInput).action = none))) := by
  decide

/-- C2, amended: `setInput` overwrites the directional and direction
fields wholesale, and the merged action is "attack" iff the new message
sets "attack" or the previous buffer carried "attack" (regardless of any
action the new message sets); the attack-then-move scenario holds and
`processInput` clears the buffer. -/
theorem C2_setInput_merge (p : Player) (input : PlayerInput) :
    ((p.setInput input).currentInput.left = input.left ∧
     (p.setInput input).currentInput.right = input.right ∧
     (p.setInput input).currentInput.up = input.up ∧
     (p.setInput input).currentInput.down = input.down ∧
     (p.setInput input).currentInput.direction = input.direction) ∧
    ((p.setInput input).currentInput.action = some "attack" ↔
      (input.action = some "attack" ∨ p.currentInput.action = some "attack")) ∧
    (∀ m : MapLoader,
      ((p.setInput { action := some "attack" }).setInput { up := some true }).isAttacking = true ∧
      (Player.processInput m
        ((p.setInput { action := some "attack" }).setInput { up := some true })).currentInput =
        emptyInput) := by
  refine ⟨?_, ?_, ?_⟩
  · simp only [Player.setInput]
    split_ifs <;> simp
  · simp only [Player.setInput]
    split_ifs with h <;> simp [h]
  · intro m
    refine ⟨?_, processInput_clears m _⟩
    simp only [Player.setInput, Player.isAttacking]
    split_ifs <;> first | decide | simp_all

/-- C10: a pending buffered "attack" survives any subsequent input
message: `setInput` restores the action field to "attack" even when the
incoming message explicitly sets a different action. -/
theorem C10_sticky_attack (p : Player) (input : PlayerInput)
    (h : p.currentInput.action = some "attack") :
    (p.setInput input).currentInput.action = some "attack" := by
  simp [Player.setInput, h]

theorem C10_witness :
    atkPlayer.currentInput.action = some "attack" ∧
    (atkPlayer.setInput { action := some "idle", down := some true }).currentInput.action =
      some "attack" :=
  ⟨by decide,
   C10_sticky_attack atkPlayer { action := some "idle", down := some true } (by decide)⟩

/-- C3, counterexample: the collision probe tests tile
`(⌊(x-2)/16⌋, ⌊(y+16)/16⌋)`, not the tile of the position itself. In
`columnMap`, a player standing clear at (8,34) walks up one tick onto
(8,31): the probe tile (0,2) is clear so the move is accepted, yet the
tile of the resulting position, (0,1), is collideable. Moreover, with no
tile layers at all, out-of-bounds coordinates are not blocked. -/
theorem C3_counterexample :
    columnMap.isTileBlocked ⌊colPlayer.position.x / 16⌋ ⌊colPlayer.position.y / 16⌋ = false ∧
    columnMap.isTileBlocked ⌊(colPlayer.position.x - 2) / 16⌋
      ⌊(colPlayer.position.y + 16) / 16⌋ = false ∧
    (Player.processInput columnMap colPlayer).position = ⟨8, 31⟩ ∧
    columnMap.isTileBlocked ⌊(Player.processInput columnMap colPlayer).position.x / 16⌋
      ⌊(Player.processInput columnMap colPlayer).position.y / 16⌋ = true ∧
    MapLoader.isTileBlocked ⟨[], []⟩ (-1) (-1) = false := by
  have hpos : (Player.processInput columnMap colPlayer).position = ⟨8, 31⟩ := by
    norm_num [Player.processInput, columnMap, colPlayer, basePlayer, truthyB, truthyS,
      MapLoader.isTileBlocked, isTileBlockedAux, TICK_RATE, List.get?] <;> decide
  refine ⟨?_, ?_, hpos, ?_, ?_⟩
  · norm_num [columnMap, colPlayer, basePlayer, MapLoader.isTileBlocked, isTileBlockedAux,
      List.get?] <;> decide
  · norm_num [columnMap, colPlayer, basePlayer, MapLoader.isTileBlocked, isTileBlockedAux,
      List.get?] <;> decide
  · rw [hpos]
    norm_num [columnMap, MapLoader.isTileBlocked, isTileBlockedAux, List.get?] <;> decide
  · norm_num [MapLoader.isTileBlocked, isTileBlockedAux]

/-- C3, amended: the invariant the movement code maintains concerns the
probe point `(x-2, y+16)`: if the probe tile of the starting position is
not blocked, it stays not blocked after any sequence of processed
inputs; and out-of-bounds coordinates are blocked for every map that has
at least one tile layer (out-of-bounds with respect to that layer). -/
theorem C3_probe_invariant (m : MapLoader) (inputs : List PlayerInput) (p : Player)
    (h : m.isTileBlocked ⌊(p.position.x - 2) / 16⌋ ⌊(p.position.y + 16) / 16⌋ = false) :
    m.isTileBlocked ⌊((processSeq m inputs p).position.x - 2) / 16⌋
      ⌊((processSeq m inputs p).position.y + 16) / 16⌋ = false ∧
    (∀ x y : Int, ∀ L ∈ m.layers, L.isTileLayer = true →
      (x < 0 ∨ x ≥ L.width ∨ y < 0 ∨ y ≥ L.height) → m.isTileBlocked x y = true) :=
  ⟨processSeq_probe m inputs p h,
   fun x y L hL ht hoob => isTileBlockedAux_oob m.collidableTiles x y m.layers ⟨L, hL, ht, hoob⟩⟩

theorem C3_witness :
    openMap.isTileBlocked ⌊(basePlayer.position.x - 2) / 16⌋
      ⌊(basePlayer.position.y + 16) / 16⌋ = false ∧
    (openMap.isTileBlocked
        ⌊((processSeq openMap [{ right := some true }] basePlayer).position.x - 2) / 16⌋
        ⌊((processSeq openMap [{ right := some true }] basePlayer).position.y + 16) / 16⌋ = false ∧
     (∀ x y : Int, ∀ L ∈ openMap.layers, L.isTileLayer = true →
       (x < 0 ∨ x ≥ L.width ∨ y < 0 ∨ y ≥ L.height) → openMap.isTileBlocked x y = true)) :=
  ⟨by norm_num [openMap, basePlayer, MapLoader.isTileBlocked, isTileBlockedAux, List.get?],
   C3_probe_invariant openMap [{ right := some true }] basePlayer
     (by norm_num [openMap, basePlayer, MapLoader.isTileBlocked, isTileBlockedAux, List.get?])⟩

/-- C8: the candidate displacement is `speed / TICK_RATE` per active
directional flag, combining additively with opposing flags cancelling;
the single probe decides the whole move (accepted wholesale or rejected
wholesale, both axes together); and the concrete scenario: (300,200),
speed 60, tick rate 20, `{right: true}` on an open map lands on
(303,200). -/
theorem C8_movement (m : MapLoader) (p : Player) :
    ((moveCandidate p).x = p.position.x
        + (if truthyB p.currentInput.right then p.speed / TICK_RATE else 0)
        - (if truthyB p.currentInput.left then p.speed / TICK_RATE else 0) ∧
     (moveCandidate p).y = p.position.y
        + (if truthyB p.currentInput.down then p.speed / TICK_RATE else 0)
        - (if truthyB p.currentInput.up then p.speed / TICK_RATE else 0)) ∧
    ((Player.processInput m p).position =
      if m.isTileBlocked ⌊((moveCandidate p).x - 2) / 16⌋
          ⌊((moveCandidate p).y + 16) / 16⌋ = false
      then moveCandidate p else p.position) ∧
    (rightPlayer.position = ⟨300, 200⟩ ∧ rightPlayer.speed = 60 ∧ TICK_RATE = 20 ∧
     (Player.processInput openMap rightPlayer).position = ⟨303, 200⟩) := by
  refine ⟨⟨?_, ?_⟩, processInput_position m p, rfl, rfl, rfl, ?_⟩
  · simp only [moveCandidate]
    split_ifs <;> ring
  · simp only [moveCandidate]
    split_ifs <;> ring
  · norm_num [Player.processInput, openMap, rightPlayer, basePlayer, truthyB, truthyS,
      MapLoader.isTileBlocked, isTileBlockedAux, TICK_RATE, List.get?, Int.toNat_ofNat]

/-- C9: for every alive enemy and every tick delta, `Enemy.move` clamps
the integrated position into the fixed rectangle `[0,800] × [0,600]`,
for any player table and any interpretation of the trig calls; the tile
collision index is never consulted (`move` takes no map input). -/
theorem C9_move_bounds (trig : TrigModel) (ps : List (String × Player)) (dt : ℚ)
    (e : Enemy) (halive : e.alive = true) :
    0 ≤ (e.move trig ps dt).position.x ∧ (e.move trig ps dt).position.x ≤ 800 ∧
    0 ≤ (e.move trig ps dt).position.y ∧ (e.move trig ps dt).position.y ≤ 600 := by
  simp only [Enemy.move, halive]
  rw [if_neg (by simp)]
  split_ifs with ht <;>
    simp only [Enemy.executeNextAction, executeAction_position] <;>
    exact ⟨le_max_left _ _, max_le (by norm_num) (min_le_left _ _),
           le_max_left _ _, max_le (by norm_num) (min_le_left _ _)⟩

theorem C9_witness :
    baseEnemy.alive = true ∧
    (0 ≤ (baseEnemy.move trig0 [] 50).position.x ∧
     (baseEnemy.move trig0 [] 50).position.x ≤ 800 ∧
     0 ≤ (baseEnemy.move trig0 [] 50).position.y ∧
     (baseEnemy.move trig0 [] 50).position.y ≤ 600) :=
  ⟨rfl, C9_move_bounds trig0 [] 50 baseEnemy rfl⟩

/-- C6, counterexample: an enemy whose alive target stands at distance
500 (squared distance 250000 > 2500 = 50²) keeps that target: neither
`findTarget` nor `performAction` clears a target for leaving the
detection radius. -/
theorem C6_counterexample :
    dist2 farEnemy.position farPlayer.position > 2500 ∧
    farPlayer.isAlive = true ∧
    (farEnemy.performAction [("a", farPlayer)]).targetPlayerId = some "a" ∧
    (farEnemy.findTarget trig0 [("a", farPlayer)]).targetPlayerId = some "a" := by
  refine ⟨?_, rfl, ?_, ?_⟩
  · norm_num [dist2, farEnemy, farPlayer, baseEnemy, basePlayer]
  · simp [Enemy.performAction, farEnemy, farPlayer, baseEnemy, basePlayer, truthyS, List.lookup]
  · simp [Enemy.findTarget, farEnemy, farPlayer, baseEnemy, basePlayer, truthyS, List.lookup]

/-- C6, amended: `performAction` clears the target, returns to idle and
zeroes velocity exactly when the target is missing from the player table
or not alive; distance is never rechecked after acquisition. -/
theorem C6_performAction_clears (ps : List (String × Player)) (e : Enemy) (tid : String)
    (h : e.targetPlayerId = some tid) (hne : tid ≠ "")
    (hdead : List.lookup tid ps = none ∨
      ∃ t, List.lookup tid ps = some t ∧ t.isAlive = false) :
    (e.performAction ps).targetPlayerId = none ∧
    (e.performAction ps).action = ActionType.idle ∧
    (e.performAction ps).velocity = ⟨0, 0⟩ := by
  have htr : truthyS (some tid) = true := by
    simp [truthyS, beq_false_of_ne hne]
  simp only [Enemy.performAction, h, Option.getD_some]
  rw [if_neg (by simp [htr])]
  rcases hdead with hnone | ⟨t, hsome, hd⟩
  · simp [hnone]
  · simp [hsome, hd]

theorem C6_witness :
    (farEnemy.targetPlayerId = some "a" ∧ "a" ≠ "" ∧
      List.lookup "a" ([] : List (String × Player)) = none) ∧
    ((farEnemy.performAction []).targetPlayerId = none ∧
     (farEnemy.performAction []).action = ActionType.idle ∧
     (farEnemy.performAction []).velocity = ⟨0, 0⟩) :=
  ⟨⟨rfl, by decide, rfl⟩,
   C6_performAction_clears [] farEnemy "a" rfl (by decide) (Or.inl rfl)⟩

theorem int_toNat_lit (n : Nat) : (Int.ofNat n).toNat = n := rfl

theorem setMovement_no_target (trig : TrigModel) (ps : List (String × Player))
    (mt : ActionType) (e : Enemy) (htgt : e.targetPlayerId = none) :
    Enemy.setMovement trig ps mt e = e := by
  simp [Enemy.setMovement, htgt, truthyS]

theorem executeAction_no_target (trig : TrigModel) (ps : List (String × Player))
    (oa : Option ActionType) (e : Enemy) (htgt : e.targetPlayerId = none) :
    (Enemy.executeAction trig ps oa e).targetPlayerId = none ∧
    (Enemy.executeAction trig ps oa e).currentActionIndex = e.currentActionIndex ∧
    (oa = some ActionType.idle →
      (Enemy.executeAction trig ps oa e).action = ActionType.idle ∧
      (Enemy.executeAction trig ps oa e).actionTimer = PAUSE_DURATION ∧
      (Enemy.executeAction trig ps oa e).velocity = ⟨0, 0⟩) ∧
    ((oa = some ActionType.hop ∨ oa = some ActionType.longJump) →
      Enemy.executeAction trig ps oa e = e) := by
  rcases oa with _ | a
  · refine ⟨htgt, rfl, ?_, ?_⟩
    · intro h; cases h
    · intro h; rcases h with h | h <;> cases h
  · cases a
    · have hsm := setMovement_no_target trig ps ActionType.hop e htgt
      refine ⟨?_, ?_, ?_, ?_⟩
      · simp [Enemy.executeAction, hsm, htgt]
      · simp [Enemy.executeAction, hsm]
      · intro h; cases h
      · intro _; simpa [Enemy.executeAction] using hsm
    · have hsm := setMovement_no_target trig ps ActionType.longJump e htgt
      refine ⟨?_, ?_, ?_, ?_⟩
      · simp [Enemy.executeAction, hsm, htgt]
      · simp [Enemy.executeAction, hsm]
      · intro h; cases h
      · intro _; simpa [Enemy.executeAction] using hsm
    · refine ⟨htgt, rfl, fun _ => ⟨rfl, rfl, rfl⟩, ?_⟩
      intro h; rcases h with h | h <;> cases h
    · refine ⟨htgt, rfl, ?_, ?_⟩
      · intro h; cases h
      · intro h; rcases h with h | h <;> cases h

theorem executeNextAction_no_target (trig : TrigModel) (ps : List (String × Player))
    (e : Enemy) (htgt : e.targetPlayerId = none) :
    (Enemy.executeNextAction trig ps e).targetPlayerId = none ∧
    (Enemy.executeNextAction trig ps e).currentActionIndex = (e.currentActionIndex + 1) % 5 ∧
    (actionCycle.get? ((e.currentActionIndex + 1) % 5).toNat = some ActionType.idle →
      (Enemy.executeNextAction trig ps e).action = ActionType.idle ∧
      (Enemy.executeNextAction trig ps e).actionTimer = PAUSE_DURATION ∧
      (Enemy.executeNextAction trig ps e).velocity = ⟨0, 0⟩) ∧
    ((actionCycle.get? ((e.currentActionIndex + 1) % 5).toNat = some ActionType.hop ∨
      actionCycle.get? ((e.currentActionIndex + 1) % 5).toNat = some ActionType.longJump) →
      (Enemy.executeNextAction trig ps e).action = e.action ∧
      (Enemy.executeNextAction trig ps e).actionTimer = e.actionTimer ∧
      (Enemy.executeNextAction trig ps e).velocity = e.velocity) := by
  obtain ⟨h1, h2, h3, h4⟩ := executeAction_no_target trig ps
    (actionCycle.get? ((e.currentActionIndex + 1) % 5).toNat)
    { e with currentActionIndex := (e.currentActionIndex + 1) % 5 } htgt
  refine ⟨h1, ?_, ?_, fun h => ?_⟩
  · exact h2
  · exact h3
  · have h5 := h4 h
    refine ⟨?_, ?_, ?_⟩
    · show (Enemy.executeAction trig ps (actionCycle.get? ((e.currentActionIndex + 1) % 5).toNat)
        { e with currentActionIndex := (e.currentActionIndex + 1) % 5 }).action = e.action
      rw [h5]
    · show (Enemy.executeAction trig ps (actionCycle.get? ((e.currentActionIndex + 1) % 5).toNat)
        { e with currentActionIndex := (e.currentActionIndex + 1) % 5 }).actionTimer = e.actionTimer
      rw [h5]
    · show (Enemy.executeAction trig ps (actionCycle.get? ((e.currentActionIndex + 1) % 5).toNat)
        { e with currentActionIndex := (e.currentActionIndex + 1) % 5 }).velocity = e.velocity
      rw [h5]

/-- C5, counterexample: a targetless enemy whose timer expires onto the
`longJump` cycle entry does not enter `longJump` and does not get its
600 ms duration: `setMovement` returns immediately without a target, so
the action stays `idle` with the timer at 0, and one 100 ms tick later
the cycle has already advanced to index 3. -/
theorem C5_counterexample :
    cycEnemy.targetPlayerId = none ∧
    (cycEnemy.move trig0 [] 100).currentActionIndex = 2 ∧
    actionCycle.get? 2 = some ActionType.longJump ∧
    (cycEnemy.move trig0 [] 100).action = ActionType.idle ∧
    (cycEnemy.move trig0 [] 100).actionTimer = 0 ∧
    ((cycEnemy.move trig0 [] 100).move trig0 [] 100).currentActionIndex = 3 ∧
    ((cycEnemy.move trig0 [] 100).move trig0 [] 100).actionTimer = PAUSE_DURATION := by
  have h1 : cycEnemy.move trig0 [] 100 = cycEnemyMid := by
    norm_num [Enemy.move, cycEnemy, cycEnemyMid, baseEnemy, trig0, Enemy.executeNextAction,
      Enemy.executeAction, Enemy.setMovement, truthyS, actionCycle,
      Int.toNat_ofNat, int_toNat_lit, List.get?, max_def, min_def]
  have h2 : cycEnemyMid.move trig0 [] 100 = cycEnemyAfter := by
    norm_num [Enemy.move, cycEnemy, cycEnemyMid, cycEnemyAfter, baseEnemy, trig0,
      Enemy.executeNextAction, Enemy.executeAction, Enemy.setMovement, truthyS, actionCycle,
      PAUSE_DURATION, Int.toNat_ofNat, int_toNat_lit, List.get?, max_def, min_def]
  rw [h1, h2]
  refine ⟨rfl, ?_, rfl, ?_, ?_, ?_, ?_⟩ <;> norm_num [cycEnemyMid, cycEnemyAfter, cycEnemy,
    baseEnemy, actionCycle, PAUSE_DURATION]

/-- C5, amended: absent a target the action timer counts down and on
expiry the cycle index advances modulo 5, but only `idle` entries
re-enter their state (velocity 0, timer `PAUSE_DURATION` = 1000 ms);
`hop` and `longJump` entries leave action, timer and velocity untouched
because `setMovement` returns at once without a target, so those phases
are passed over in a single tick instead of lasting their documented
1000/600 ms durations. -/
theorem C5_cycle (trig : TrigModel) (ps : List (String × Player)) (dt : ℚ) (e : Enemy)
    (halive : e.alive = true) (htgt : e.targetPlayerId = none) :
    (e.move trig ps dt).targetPlayerId = none ∧
    (0 < e.actionTimer - dt →
      (e.move trig ps dt).currentActionIndex = e.currentActionIndex ∧
      (e.move trig ps dt).actionTimer = e.actionTimer - dt ∧
      (e.move trig ps dt).action = e.action ∧
      (e.move trig ps dt).velocity = e.velocity) ∧
    (e.actionTimer - dt ≤ 0 →
      (e.move trig ps dt).currentActionIndex = (e.currentActionIndex + 1) % 5 ∧
      (actionCycle.get? ((e.currentActionIndex + 1) % 5).toNat = some ActionType.idle →
        (e.move trig ps dt).action = ActionType.idle ∧
        (e.move trig ps dt).actionTimer = PAUSE_DURATION ∧
        (e.move trig ps dt).velocity = ⟨0, 0⟩) ∧
      ((actionCycle.get? ((e.currentActionIndex + 1) % 5).toNat = some ActionType.hop ∨
        actionCycle.get? ((e.currentActionIndex + 1) % 5).toNat = some ActionType.longJump) →
        (e.move trig ps dt).action = e.action ∧
        (e.move trig ps dt).actionTimer = e.actionTimer - dt ∧
        (e.move trig ps dt).velocity = e.velocity)) := by
  simp only [Enemy.move, halive]
  rw [if_neg (by simp)]
  split_ifs with ht
  · obtain ⟨h1, h2, h3, h4⟩ := executeNextAction_no_target trig ps
      { e with alive := true,
               position := ⟨max 0 (min 800 (e.position.x + e.velocity.x * (dt / 1000))),
                           max 0 (min 600 (e.position.y + e.velocity.y * (dt / 1000)))⟩,
               actionTimer := e.actionTimer - dt } htgt
    exact ⟨h1, fun hpos => absurd ht (by linarith), fun _ => ⟨h2, h3, fun hh => h4 hh⟩⟩
  · refine ⟨htgt, fun _ => ⟨rfl, rfl, rfl, rfl⟩, fun hle => absurd hle ht⟩

/-- C4, counterexample: two alive players tie at squared distance 900
from a targetless enemy; the claim requires the lowest id "a" to win the
tie independently of iteration order, but the scan keeps the first table
entry, here "b". -/
theorem C4_counterexample :
    dist2 baseEnemy.position playerAtA.position = dist2 baseEnemy.position playerAtB.position ∧
    dist2 baseEnemy.position playerAtA.position ≤ 2500 ∧
    playerAtA.isAlive = true ∧ playerAtB.isAlive = true ∧
    baseEnemy.targetPlayerId = none ∧
    (baseEnemy.findTarget trig0 [("b", playerAtB), ("a", playerAtA)]).targetPlayerId =
      some "b" := by
  refine ⟨?_, ?_, rfl, rfl, rfl, ?_⟩
  · norm_num [dist2, baseEnemy, playerAtA, playerAtB, basePlayer]
  · norm_num [dist2, baseEnemy, playerAtA, basePlayer]
  · norm_num [Enemy.findTarget, truthyS, scanLoop, playerScore, dist2, baseEnemy,
      playerAtA, playerAtB, basePlayer, Enemy.executeNextAction, Enemy.executeAction,
      Enemy.setMovement, actionCycle, List.lookup, Int.toNat_ofNat, int_toNat_lit,
      List.get?]
    split_ifs <;> rfl

/-- C4, amended: whenever the rescan guard of `findTarget` fails — the
current target is unset, empty, missing from the player table, or not
alive — the scan selects an entry of the player table within the
detection radius (squared distance ≤ 2500) at minimal distance, with
ties resolved to the EARLIEST entry in table iteration order (not the
lowest id), without filtering on aliveness; on acquisition the
behaviour cycle restarts: index 0 and the `hop` state with its 1000 ms
timer. -/
theorem C4_findTarget_nearest (trig : TrigModel) (ps : List (String × Player)) (e : Enemy)
    (pid : String) (tp : Player) (d : ℚ)
    (hguard : (truthyS e.targetPlayerId &&
      ((List.lookup (e.targetPlayerId.getD "") ps).map Player.isAlive).getD false) = false)
    (hpid : pid ≠ "")
    (hscan : scanLoop (playerScore e.position) ps none = some (pid, tp, d)) :
    ((e.findTarget trig ps).targetPlayerId = some pid ∧
     (e.findTarget trig ps).currentActionIndex = 0 ∧
     (e.findTarget trig ps).action = ActionType.hop ∧
     (e.findTarget trig ps).actionTimer = MOVE_DURATION) ∧
    ((pid, tp) ∈ ps ∧ d = dist2 e.position tp.position ∧ d ≤ 2500) ∧
    (∀ q qp, (q, qp) ∈ ps → dist2 e.position qp.position ≤ 2500 →
      d ≤ dist2 e.position qp.position) ∧
    (∃ l1 l2, ps = l1 ++ (pid, tp) :: l2 ∧
      ∀ y ∈ l1, dist2 e.position y.2.position ≤ 2500 →
        d < dist2 e.position y.2.position) := by
  have hfm : scanFirstMin (playerScore e.position) ps = some (pid, tp, d) := by
    have h0 := scanLoop_eq_combine (playerScore e.position) ps none
    rw [hscan] at h0
    simpa [combineAcc] using h0.symm
  obtain ⟨hmem, hsc⟩ := scanFirstMin_mem _ ps pid tp d hfm
  have hsc2 := hsc
  simp only [playerScore] at hsc2
  split_ifs at hsc2 with hle
  have hdeq : d = dist2 e.position tp.position := (Option.some.inj hsc2).symm
  have hmin : ∀ q qp, (q, qp) ∈ ps → dist2 e.position qp.position ≤ 2500 →
      d ≤ dist2 e.position qp.position := by
    intro q qp hq hqle
    exact scanFirstMin_min _ ps pid tp d hfm q qp hq _ (by simp [playerScore, hqle])
  have hfirst : ∃ l1 l2, ps = l1 ++ (pid, tp) :: l2 ∧
      ∀ y ∈ l1, dist2 e.position y.2.position ≤ 2500 →
        d < dist2 e.position y.2.position := by
    obtain ⟨l1, l2, hsplit, hf⟩ := scanFirstMin_first _ ps pid tp d hfm
    refine ⟨l1, l2, hsplit, ?_⟩
    intro y hy hyle
    exact hf y hy _ (by simp [playerScore, hyle])
  obtain ⟨w, hw⟩ := lookup_mem_isSome pid ps tp hmem
  have hbeq : (pid == "") = false := beq_false_of_ne hpid
  have hshape : e.findTarget trig ps =
      Enemy.executeNextAction trig ps
        { e with targetPlayerId := some pid, currentActionIndex := -1 } := by
    simp only [Enemy.findTarget, hguard, Bool.false_eq_true, if_false, hscan]
  have hstep : ((-1 : Int) + 1) % 5 = 0 := by norm_num
  refine ⟨?_, ⟨hmem, hdeq, hdeq ▸ hle⟩, hmin, hfirst⟩
  rw [hshape]
  simp only [Enemy.executeNextAction]
  norm_num [hstep]
  simp [Enemy.executeAction, actionCycle, Enemy.setMovement, truthyS, hbeq, hw,
    MOVE_DURATION, HOP_DISTANCE, List.get?]

theorem C4_witness :
    ((truthyS farEnemy.targetPlayerId &&
        ((List.lookup (farEnemy.targetPlayerId.getD "") [("b", playerAtB)]).map
          Player.isAlive).getD false) = false ∧
      "b" ≠ "" ∧
      scanLoop (playerScore farEnemy.position) [("b", playerAtB)] none =
        some ("b", playerAtB, 900)) ∧
    (((farEnemy.findTarget trig0 [("b", playerAtB)]).targetPlayerId = some "b" ∧
      (farEnemy.findTarget trig0 [("b", playerAtB)]).currentActionIndex = 0 ∧
      (farEnemy.findTarget trig0 [("b", playerAtB)]).action = ActionType.hop ∧
      (farEnemy.findTarget trig0 [("b", playerAtB)]).actionTimer = MOVE_DURATION) ∧
     (("b", playerAtB) ∈ [("b", playerAtB)] ∧
      (900 : ℚ) = dist2 farEnemy.position playerAtB.position ∧ (900 : ℚ) ≤ 2500) ∧
     (∀ q qp, (q, qp) ∈ [("b", playerAtB)] →
       dist2 farEnemy.position qp.position ≤ 2500 →
       (900 : ℚ) ≤ dist2 farEnemy.position qp.position) ∧
     (∃ l1 l2, [("b", playerAtB)] = l1 ++ ("b", playerAtB) :: l2 ∧
       ∀ y ∈ l1, dist2 farEnemy.position y.2.position ≤ 2500 →
         (900 : ℚ) < dist2 farEnemy.position y.2.position)) :=
  ⟨⟨by decide, by decide,
    by norm_num [scanLoop, playerScore, dist2, farEnemy, baseEnemy, playerAtB, basePlayer]⟩,
   C4_findTarget_nearest trig0 [("b", playerAtB)] farEnemy "b" playerAtB 900
     (by decide) (by decide)
     (by norm_num [scanLoop, playerScore, dist2, farEnemy, baseEnemy, playerAtB, basePlayer])⟩

/-- C7: the combat step run for an attacking player picks an alive enemy
strictly within the attack radius (squared distance < 2500 = 50²) at
minimal distance among alive enemies in range and deals fixed damage 10.
If the victim reaches health ≤ 0 it is marked dead, removed from the
enemy store, and the attacker is granted `gainExp 50`; otherwise it
survives in `confused` with zero velocity and a 1000 ms timer. An enemy
starting at health 30 is dead with health ≤ 0 after three such hits. -/
theorem C7_handleAttack (pid : String) (ps : List (String × Player))
    (es : List (String × Enemy)) (player : Player) (eid : String) (en : Enemy) (d : ℚ)
    (hp : List.lookup pid ps = some player)
    (hscan : scanLoop (enemyScore player.position) es none = some (eid, en, d)) :
    ((eid, en) ∈ es ∧ en.alive = true ∧ d = dist2 player.position en.position ∧
      d < 2500 ∧
      (∀ q qe, (q, qe) ∈ es → qe.alive = true →
        dist2 player.position qe.position < 2500 →
        d ≤ dist2 player.position qe.position)) ∧
    (en.health - 10 ≤ 0 →
      (en.takeDamage 10).2 = true ∧ (en.takeDamage 10).1.alive = false ∧
      List.lookup eid (handleAttack pid ps es).2 = none ∧
      List.lookup pid (handleAttack pid ps es).1 = some (player.gainExp 50).1) ∧
    (0 < en.health - 10 →
      (en.takeDamage 10).2 = false ∧ (en.takeDamage 10).1.alive = true ∧
      (handleAttack pid ps es).1 = ps ∧
      List.lookup eid (handleAttack pid ps es).2 = some
        { en with health := en.health - 10, velocity := ⟨0, 0⟩,
                  action := ActionType.confused, actionTimer := PAUSE_DURATION }) ∧
    ((((scenEnemy.takeDamage 10).1.takeDamage 10).1.takeDamage 10).1.alive = false ∧
     (((scenEnemy.takeDamage 10).1.takeDamage 10).1.takeDamage 10).1.health ≤ 0) := by
  have hfm : scanFirstMin (enemyScore player.position) es = some (eid, en, d) := by
    have h0 := scanLoop_eq_combine (enemyScore player.position) es none
    rw [hscan] at h0
    simpa [combineAcc] using h0.symm
  obtain ⟨hmem, hsc⟩ := scanFirstMin_mem _ es eid en d hfm
  have hsc2 := hsc
  simp only [enemyScore] at hsc2
  split_ifs at hsc2 with hna hr
  have halive : en.alive = true := by simpa using hna
  have hdeq : d = dist2 player.position en.position := (Option.some.inj hsc2).symm
  have hmin : ∀ q qe, (q, qe) ∈ es → qe.alive = true →
      dist2 player.position qe.position < 2500 →
      d ≤ dist2 player.position qe.position := by
    intro q qe hq hqa hql
    exact scanFirstMin_min _ es eid en d hfm q qe hq _ (by simp [enemyScore, hqa, hql])
  refine ⟨⟨hmem, halive, hdeq, hdeq ▸ hr, hmin⟩, ?_, ?_, by decide⟩
  · intro hdd
    have ht : en.takeDamage 10 = ({ en with health := en.health - 10, alive := false }, true) := by
      simp [Enemy.takeDamage, hdd]
    have hres : handleAttack pid ps es =
        (updateEntry pid (player.gainExp 50).1 ps,
         es.filter (fun kv => !(kv.1 == eid))) := by
      simp [handleAttack, hp, hscan, ht]
    refine ⟨by simp [ht], by simp [ht], ?_, ?_⟩
    · rw [hres]
      exact lookup_filter_ne eid es
    · rw [hres]
      exact lookup_updateEntry_of_mem pid _ ps player (lookup_eq_some_mem pid ps player hp)
  · intro hdd
    have hnd : ¬ (en.health - 10 ≤ 0) := by omega
    have ht : en.takeDamage 10 =
        ({ en with health := en.health - 10, velocity := ⟨0, 0⟩,
                   action := ActionType.confused, actionTimer := PAUSE_DURATION }, false) := by
      simp [Enemy.takeDamage, hnd]
    have hres : handleAttack pid ps es =
        (ps, updateEntry eid
          { en with health := en.health - 10, velocity := ⟨0, 0⟩,
                    action := ActionType.confused, actionTimer := PAUSE_DURATION } es) := by
      simp [handleAttack, hp, hscan, ht]
    refine ⟨by simp [ht], by simp [ht, halive], by rw [hres], ?_⟩
    rw [hres]
    exact lookup_updateEntry_of_mem eid _ es en hmem

theorem C7_witness :
    (List.lookup "p" [("p", basePlayer)] = some basePlayer ∧
      scanLoop (enemyScore basePlayer.position) [("m", scenEnemy)] none =
        some ("m", scenEnemy, 0)) ∧
    ((("m", scenEnemy) ∈ [("m", scenEnemy)] ∧ scenEnemy.alive = true ∧
      (0 : ℚ) = dist2 basePlayer.position scenEnemy.position ∧ (0 : ℚ) < 2500 ∧
      (∀ q qe, (q, qe) ∈ [("m", scenEnemy)] → qe.alive = true →
        dist2 basePlayer.position qe.position < 2500 →
        (0 : ℚ) ≤ dist2 basePlayer.position qe.position)) ∧
     (scenEnemy.health - 10 ≤ 0 →
       (scenEnemy.takeDamage 10).2 = true ∧ (scenEnemy.takeDamage 10).1.alive = false ∧
       List.lookup "m" (handleAttack "p" [("p", basePlayer)] [("m", scenEnemy)]).2 = none ∧
       List.lookup "p" (handleAttack "p" [("p", basePlayer)] [("m", scenEnemy)]).1 =
         some (basePlayer.gainExp 50).1) ∧
     (0 < scenEnemy.health - 10 →
       (scenEnemy.takeDamage 10).2 = false ∧ (scenEnemy.takeDamage 10).1.alive = true ∧
       (handleAttack "p" [("p", basePlayer)] [("m", scenEnemy)]).1 = [("p", basePlayer)] ∧
       List.lookup "m" (handleAttack "p" [("p", basePlayer)] [("m", scenEnemy)]).2 = some
         { scenEnemy with health := scenEnemy.health - 10, velocity := ⟨0, 0⟩,
                          action := ActionType.confused, actionTimer := PAUSE_DURATION }) ∧
     ((((scenEnemy.takeDamage 10).1.takeDamage 10).1.takeDamage 10).1.alive = false ∧
      (((scenEnemy.takeDamage 10).1.takeDamage 10).1.takeDamage 10).1.health ≤ 0)) :=
  ⟨⟨rfl, by norm_num [scanLoop, enemyScore, dist2, scenEnemy, baseEnemy, basePlayer]⟩,
   C7_handleAttack "p" [("p", basePlayer)] [("m", scenEnemy)] basePlayer "m" scenEnemy 0
     rfl
     (by norm_num [scanLoop, enemyScore, dist2, scenEnemy, baseEnemy, basePlayer])⟩

theorem C5_witness :
    (cycEnemy.alive = true ∧ cycEnemy.targetPlayerId = none) ∧
    ((cycEnemy.move trig0 [] 100).targetPlayerId = none ∧
     (0 < cycEnemy.actionTimer - 100 →
       (cycEnemy.move trig0 [] 100).currentActionIndex = cycEnemy.currentActionIndex ∧
       (cycEnemy.move trig0 [] 100).actionTimer = cycEnemy.actionTimer - 100 ∧
       (cycEnemy.move trig0 [] 100).action = cycEnemy.action ∧
       (cycEnemy.move trig0 [] 100).velocity = cycEnemy.velocity) ∧
     (cycEnemy.actionTimer - 100 ≤ 0 →
       (cycEnemy.move trig0 [] 100).currentActionIndex =
         (cycEnemy.currentActionIndex + 1) % 5 ∧
       (actionCycle.get? ((cycEnemy.currentActionIndex + 1) % 5).toNat =
           some ActionType.idle →
         (cycEnemy.move trig0 [] 100).action = ActionType.idle ∧
         (cycEnemy.move trig0 [] 100).actionTimer = PAUSE_DURATION ∧
         (cycEnemy.move trig0 [] 100).velocity = ⟨0, 0⟩) ∧
       ((actionCycle.get? ((cycEnemy.currentActionIndex + 1) % 5).toNat =
           some ActionType.hop ∨
         actionCycle.get? ((cycEnemy.currentActionIndex + 1) % 5).toNat =
           some ActionType.longJump) →
         (cycEnemy.move trig0 [] 100).action = cycEnemy.action ∧
         (cycEnemy.move trig0 [] 100).actionTimer = cycEnemy.actionTimer - 100 ∧
         (cycEnemy.move trig0 [] 100).velocity = cycEnemy.velocity))) :=
  ⟨⟨rfl, rfl⟩, C5_cycle trig0 [] 100 cycEnemy rfl rfl⟩
